import Mathlib

/-!
Verification of the CJKAnchorImport metrics readers
(`CJKAlternateMetricsGPOSReader` and `CJKAlternateMetricsUFOReader` in
`plugin.py`) against their specification.

The embedding below mirrors the Python source:

* Python `int` values (GPOS placements/advances, int16 in the file format)
  become `Int`; UFO guide coordinates, master metrics and layer widths,
  which are Python floats, become `Rat` (the claims only involve exact
  `+`, `-`, `min`, `max`, comparisons, on which float and rational
  arithmetic agree for font-sized values).
* Python dicts become functions into `Option`, with insertion modelled as
  pointwise update, so later insertions overwrite earlier ones exactly as
  in the source.
* Python list indexing with `[-1]` on a possibly-empty list raises
  `IndexError`; where a claim depends on that (the UFO reader) the
  embedding returns `Except String _`, with `.error` marking the raise,
  and accesses happen in the source's evaluation order.
-/

/-- Direction constants `H = 0`, `V = 1` from the source. -/
inductive Direction where
  | H : Direction
  | V : Direction
deriving DecidableEq, Repr

/-- `Adjustment = namedtuple('Adjustment', ['glyph', 'placement', 'advance', 'direction'])`. -/
structure Adjustment where
  glyph : String
  placement : Int
  advance : Int
  direction : Direction
deriving DecidableEq, Repr

/-- `EdgeInsets = namedtuple('EdgeInsets', ['left', 'right', 'top', 'bottom'])`,
parametrised over the numeric type: `Int` for the GPOS reader, `Rat` for
the UFO reader (Python uses one dynamically-typed tuple for both). -/
structure EdgeInsets (α : Type) where
  left : α
  right : α
  top : α
  bottom : α
deriving DecidableEq, Repr

/-- `VerticalMetrics = namedtuple('VerticalMetrics', ['height', 'TSB'])`. -/
structure VerticalMetrics where
  height : Int
  TSB : Int
deriving DecidableEq, Repr

/-- A GPOS value record.  In fontTools a `ValueRecord` object carries only
the attributes named by the subtable's `ValueFormat`; the decoder accesses
exactly the attributes the recognised `ValueFormat` guarantees, so giving
the record all four fields (the others simply unread) is faithful. -/
structure ValueRecord where
  XPlacement : Int
  YPlacement : Int
  XAdvance : Int
  YAdvance : Int
deriving DecidableEq, Repr

/-- The `Value` field of a LookupType-1 subtable: either a single record
(fontTools' compact encoding, not iterable) or a list of records. -/
inductive ValueField where
  | single : ValueRecord → ValueField
  | list : List ValueRecord → ValueField
deriving DecidableEq, Repr

/-- A LookupType-1 subtable: `Format`, `ValueFormat`, `Coverage.glyphs`,
`Value`. -/
structure SubTable where
  Format : Nat
  ValueFormat : Nat
  CoverageGlyphs : List String
  Value : ValueField
deriving DecidableEq, Repr

/-- A GPOS lookup: `LookupType` and its `SubTable` list. -/
structure Lookup where
  LookupType : Nat
  SubTable : List SubTable
deriving DecidableEq, Repr

/-- A `FeatureRecord`: its `FeatureTag` and `Feature.LookupListIndex`. -/
structure FeatureRecord where
  FeatureTag : String
  LookupListIndex : List Nat
deriving DecidableEq, Repr

/-- The GPOS table: `FeatureList.FeatureRecord` and `LookupList.Lookup`. -/
structure GPOSTable where
  FeatureRecord : List FeatureRecord
  Lookup : List Lookup
deriving DecidableEq, Repr

/-- A parsed font binary as the reader sees it: an optional GPOS table and
an optional vmtx table (`vmtx.metrics`: glyph name to
`(advanceHeight, topSideBearing)`). -/
structure TTFontModel where
  gpos : Option GPOSTable
  vmtxMetrics : Option (List (String × (Int × Int)))
deriving DecidableEq, Repr

/-- `__ensure_enumerable`: a single (non-iterable) record becomes a
one-element list; a list is returned unchanged. -/
def ensure_enumerable : ValueField → List ValueRecord
  | .single v => [v]
  | .list vs => vs

/-- `__make_adjustment_from_value_in_format_1`. -/
def make_adjustment_from_value_in_format_1 (glyph : String) (value : ValueRecord) : Adjustment :=
  ⟨glyph, value.XPlacement, 0, .H⟩

/-- `__make_adjustment_from_value_in_format_2`. -/
def make_adjustment_from_value_in_format_2 (glyph : String) (value : ValueRecord) : Adjustment :=
  ⟨glyph, value.YPlacement, 0, .V⟩

/-- `__make_adjustment_from_value_in_format_4`. -/
def make_adjustment_from_value_in_format_4 (glyph : String) (value : ValueRecord) : Adjustment :=
  ⟨glyph, 0, value.XAdvance, .H⟩

/-- `__make_adjustment_from_value_in_format_5`. -/
def make_adjustment_from_value_in_format_5 (glyph : String) (value : ValueRecord) : Adjustment :=
  ⟨glyph, value.XPlacement, value.XAdvance, .H⟩

/-- `__make_adjustment_from_value_in_format_8`. -/
def make_adjustment_from_value_in_format_8 (glyph : String) (value : ValueRecord) : Adjustment :=
  ⟨glyph, 0, value.YAdvance, .V⟩

/-- `__make_adjustment_from_value_in_format_10`. -/
def make_adjustment_from_value_in_format_10 (glyph : String) (value : ValueRecord) : Adjustment :=
  ⟨glyph, value.YPlacement, value.YAdvance, .V⟩

/-- The `ValueFormat`-keyed dispatch dictionary in
`__make_adjustments_from_subtable` (`{1: ..., 2: ..., 4: ..., 5: ...,
8: ..., 10: ...}.get(subtable.ValueFormat)`). -/
def value_format_dispatch (vf : Nat) : Option (String → ValueRecord → Adjustment) :=
  if vf = 1 then some make_adjustment_from_value_in_format_1
  else if vf = 2 then some make_adjustment_from_value_in_format_2
  else if vf = 4 then some make_adjustment_from_value_in_format_4
  else if vf = 5 then some make_adjustment_from_value_in_format_5
  else if vf = 8 then some make_adjustment_from_value_in_format_8
  else if vf = 10 then some make_adjustment_from_value_in_format_10
  else none

/-- `__make_adjustments_from_subtable`: only `Format` 1 or 2 and a
recognised `ValueFormat`; pair glyphs with values when the lengths agree,
broadcast a single value (`values[-1]`) otherwise, else return nothing. -/
def make_adjustments_from_subtable (st : SubTable) : List Adjustment :=
  if st.Format = 1 ∨ st.Format = 2 then
    match value_format_dispatch st.ValueFormat with
    | some make =>
      let glyphs := st.CoverageGlyphs
      let values := ensure_enumerable st.Value
      if glyphs.length = values.length then
        (glyphs.zip values).map (fun p => make p.1 p.2)
      else if values.length = 1 then
        match values.getLast? with
        | some value => glyphs.map (fun glyph => make glyph value)
        | none => []
      else []
    | none => []
  else []

/-- `__make_adjustments_from_lookup`: only `LookupType` 1 contributes;
its subtables' adjustment lists are concatenated in order. -/
def make_adjustments_from_lookup (lookup : Lookup) : List Adjustment :=
  if lookup.LookupType = 1 then
    (lookup.SubTable.map make_adjustments_from_subtable).flatten
  else []

/-- The accumulator step of the loop in `__make_edge_insets_from_adjustments`:
`(placement_x, advance_x, placement_y, advance_y)`. -/
def edge_insets_step (acc : Int × Int × Int × Int) (a : Adjustment) : Int × Int × Int × Int :=
  match a.direction with
  | .H => (acc.1 + a.placement, acc.2.1 + a.advance, acc.2.2.1, acc.2.2.2)
  | .V => (acc.1, acc.2.1, acc.2.2.1 + a.placement, acc.2.2.2 + a.advance)

/-- `__make_edge_insets_from_adjustments`: accumulate the four sums, then
`EdgeInsets(-placement_x, -(advance_x - placement_x), placement_y,
-(advance_y + placement_y))`. -/
def make_edge_insets_from_adjustments (adjustments : List Adjustment) : EdgeInsets Int :=
  let acc := adjustments.foldl edge_insets_step (0, 0, 0, 0)
  ⟨-acc.1, -(acc.2.1 - acc.1), acc.2.2.1, -(acc.2.2.2 + acc.2.2.1)⟩

/-- First-occurrence deduplication: keeps each element's first occurrence
and drops the rest.  This is what Python's
`sorted(set(l), key=lambda x: l.index(x))` computes (each distinct
element has a unique first-occurrence index, so that sort is
deterministic and orders the set by first appearance). -/
def dedup_first {α : Type} [DecidableEq α] : List α → List α
  | [] => []
  | t :: rest => t :: (dedup_first rest).filter (fun x => x ≠ t)

/-- `__make_tag_list`: the distinct feature tags in first-appearance
order. -/
def make_tag_list (l : List String) : List String :=
  dedup_first l

/-- `__make_tag_lookup_dict`, per tag: union the `LookupListIndex` lists of
all records carrying the tag into a set, then `sorted(...)` — i.e. the
sorted list of the distinct indices. -/
def tag_lookup_indices (table : GPOSTable) (tag : String) : List Nat :=
  List.insertionSort (fun a b => a ≤ b)
    (dedup_first (((table.FeatureRecord.filter
      (fun r => r.FeatureTag = tag)).map FeatureRecord.LookupListIndex).flatten))

/-- Resolution `[table.LookupList.Lookup[i] for i in sorted(d[tag])]`.
(The source would raise `IndexError` on an out-of-range index; no claim
involves that case, and `filterMap` simply drops such indices here.) -/
def lookups_from_tag (table : GPOSTable) (tag : String) : List Lookup :=
  (tag_lookup_indices table tag).filterMap (fun i => table.Lookup.get? i)

/-- `adjustments_from_tag`: concatenation of the per-lookup adjustment
lists over the tag's (sorted, distinct) lookups.  The source routes this
through `__lookup_adjustments_dict`, a cache keyed by lookup identity that
holds `__make_adjustments_from_lookup(lookup)` for every lookup in the
`LookupList`; since every lookup resolved from a tag is an element of the
`LookupList`, the cached value is exactly
`make_adjustments_from_lookup lookup`. -/
def adjustments_from_tag (table : GPOSTable) (tag : String) : List Adjustment :=
  ((lookups_from_tag table tag).map make_adjustments_from_lookup).flatten

/-- The tag list of a GPOS table (`self.tags` when GPOS is present). -/
def gpos_tags (table : GPOSTable) : List String :=
  make_tag_list (table.FeatureRecord.map FeatureRecord.FeatureTag)

/-- The adjustment stream traversed by `__make_edge_insets_dict`:
`for tag in self.tags: if tag in ('palt', 'vpal'): for adjustment in
self.adjustments_from_tag(tag): ...`, in that order. -/
def palt_vpal_adjustments (table : GPOSTable) : List Adjustment :=
  (((gpos_tags table).filter (fun t => t = "palt" ∨ t = "vpal")).map
    (adjustments_from_tag table)).flatten

/-- One step of `__make_edge_insets_dict`'s grouping loop:
`d[adjustment.glyph].append(adjustment)` (creating the entry first when
absent), on dicts modelled as functions to lists. -/
def append_adjustment (d : String → List Adjustment) (a : Adjustment) :
    String → List Adjustment :=
  fun g => if g = a.glyph then d g ++ [a] else d g

/-- The grouping loop of `__make_edge_insets_dict`: fold the adjustment
stream into a per-glyph dict of appended lists. -/
def group_adjustments_by_glyph (l : List Adjustment) : String → List Adjustment :=
  l.foldl append_adjustment (fun _ => [])

/-- `__make_edge_insets_dict`: group the palt/vpal adjustment stream by
glyph, then reduce each glyph's group; a glyph has an entry exactly when
its group is non-empty (the dict only ever gained a key on an append). -/
def make_edge_insets_dict (table : GPOSTable) : String → Option (EdgeInsets Int) :=
  fun glyph =>
    let grp := group_adjustments_by_glyph (palt_vpal_adjustments table) glyph
    if grp = [] then none else some (make_edge_insets_from_adjustments grp)

/-- `self.tags` at reader level: empty when the font has no GPOS table
(`__setup` initialises `__tag_list = []` and only fills it under
`if 'GPOS' in font`). -/
def gpos_reader_tags (font : TTFontModel) : List String :=
  match font.gpos with
  | some table => gpos_tags table
  | none => []

/-- `has_metrics`: `'palt' in self.tags or 'vpal' in self.tags`. -/
def gpos_reader_has_metrics (font : TTFontModel) : Bool :=
  (gpos_reader_tags font).contains "palt" || (gpos_reader_tags font).contains "vpal"

/-- `edge_insets` at reader level: empty when the font has no GPOS table. -/
def gpos_reader_edge_insets (font : TTFontModel) : String → Option (EdgeInsets Int) :=
  match font.gpos with
  | some table => make_edge_insets_dict table
  | none => fun _ => none

/-- `vmtx` at reader level (`__make_vmtx_dict`): built from
`vmtx.metrics.items()` whenever a vmtx table is present — independently of
whether GPOS is present. -/
def gpos_reader_vmtx (font : TTFontModel) : String → Option VerticalMetrics :=
  match font.vmtxMetrics with
  | some entries =>
      entries.foldl
        (fun d kv => fun n => if n = kv.1 then some ⟨kv.2.1, kv.2.2⟩ else d n)
        (fun _ => none)
  | none => fun _ => none

/-- `can_open_font`: true iff a GPOS table is present. -/
def can_open_font (font : TTFontModel) : Bool :=
  font.gpos.isSome

/-- A RoboFont-convention guide annotation `{angle, x, y}` on a UFO glyph. -/
structure UFOGuide where
  angle : Rat
  x : Rat
  y : Rat
deriving DecidableEq, Repr

/-- A master of the (Glyphs-imported) UFO font: ascender and descender. -/
structure UFOMaster where
  ascender : Rat
  descender : Rat
deriving DecidableEq, Repr

/-- A layer of a UFO glyph: its advance width. -/
structure UFOLayer where
  width : Rat
deriving DecidableEq, Repr

/-- A UFO glyph: name, layers, and the optional
`userData['com.typemytype.robofont.guides']` list (`none` models the
absent key, for which Python's lookup returns `None`). -/
structure UFOGlyph where
  name : String
  layers : List UFOLayer
  robofontGuides : Option (List UFOGuide)
deriving DecidableEq, Repr

/-- A UFO font: masters and glyphs (`glyph.parent` is the font). -/
structure UFOFont where
  masters : List UFOMaster
  glyphs : List UFOGlyph
deriving DecidableEq, Repr

/-- The `horizontals` list collected from the glyph's guides: the `x` of
every guide with `angle == 90.0`, in guide order. -/
def glyph_horizontals (glyph : UFOGlyph) : List Rat :=
  match glyph.robofontGuides with
  | none => []
  | some gs => (gs.filter (fun gd => gd.angle = 90)).map UFOGuide.x

/-- The `verticals` list collected from the glyph's guides: the `y` of
every guide with `angle == 0.0`, in guide order. -/
def glyph_verticals (glyph : UFOGlyph) : List Rat :=
  match glyph.robofontGuides with
  | none => []
  | some gs => (gs.filter (fun gd => gd.angle = 0)).map UFOGuide.y

/-- The `(left, right, top, bottom)` quadruple computed by
`__make_edge_insets_from_glyph` before its non-zero check, with Python's
evaluation order kept: `glyph.parent.masters[-1]` is indexed first,
unconditionally (its `IndexError` becomes `.error`), while
`glyph.layers[-1]` is indexed only inside the
`len(horizontals) >= 2` branch. -/
def edge_values_from_glyph (font : UFOFont) (glyph : UFOGlyph) :
    Except String (Rat × Rat × Rat × Rat) :=
  match font.masters.getLast? with
  | none => .error "IndexError: masters[-1]"
  | some master =>
    let horizontals := List.insertionSort (fun a b => a ≤ b) (glyph_horizontals glyph)
    let verticals := List.insertionSort (fun a b => a ≤ b) (glyph_verticals glyph)
    let tb : Rat × Rat :=
      if 2 ≤ verticals.length then
        (master.ascender - (verticals.getLast?.getD 0),
         -(master.descender - (verticals.head?.getD 0)))
      else (0, 0)
    if 2 ≤ horizontals.length then
      match glyph.layers.getLast? with
      | none => .error "IndexError: layers[-1]"
      | some layer =>
          .ok (horizontals.head?.getD 0,
               layer.width - (horizontals.getLast?.getD 0), tb.1, tb.2)
    else .ok (0, 0, tb.1, tb.2)

/-- `__make_edge_insets_from_glyph`: return the quadruple as `EdgeInsets`
when at least one value is non-zero, else `None`. -/
def make_edge_insets_from_glyph (font : UFOFont) (glyph : UFOGlyph) :
    Except String (Option (EdgeInsets Rat)) :=
  match edge_values_from_glyph font glyph with
  | .error e => .error e
  | .ok q =>
      if q.1 ≠ 0 ∨ q.2.1 ≠ 0 ∨ q.2.2.1 ≠ 0 ∨ q.2.2.2 ≠ 0 then
        .ok (some ⟨q.1, q.2.1, q.2.2.1, q.2.2.2⟩)
      else .ok none

/-- The loop of the UFO reader's `__make_edge_insets_dict`: insert each
glyph's non-`None` insets under its name (later glyphs overwrite, as dict
assignment does), propagating any `IndexError`. -/
def ufo_edge_insets_entries (font : UFOFont) :
    List UFOGlyph → (String → Option (EdgeInsets Rat)) →
    Except String (String → Option (EdgeInsets Rat))
  | [], d => .ok d
  | g :: rest, d =>
    match make_edge_insets_from_glyph font g with
    | .error e => .error e
    | .ok none => ufo_edge_insets_entries font rest d
    | .ok (some insets) =>
        ufo_edge_insets_entries font rest
          (fun n => if n = g.name then some insets else d n)

/-- The UFO reader's `__make_edge_insets_dict`, run at construction over
all glyphs of the font. -/
def ufo_make_edge_insets_dict (font : UFOFont) :
    Except String (String → Option (EdgeInsets Rat)) :=
  ufo_edge_insets_entries font font.glyphs (fun _ => none)

/-! ## Theorems -/

/-- Sum of the `placement` fields of the horizontal adjustments. -/
def hplacement_sum (l : List Adjustment) : Int :=
  ((l.filter (fun a => a.direction = Direction.H)).map Adjustment.placement).sum

/-- Sum of the `advance` fields of the horizontal adjustments. -/
def hadvance_sum (l : List Adjustment) : Int :=
  ((l.filter (fun a => a.direction = Direction.H)).map Adjustment.advance).sum

/-- Sum of the `placement` fields of the vertical adjustments. -/
def vplacement_sum (l : List Adjustment) : Int :=
  ((l.filter (fun a => a.direction = Direction.V)).map Adjustment.placement).sum

/-- Sum of the `advance` fields of the vertical adjustments. -/
def vadvance_sum (l : List Adjustment) : Int :=
  ((l.filter (fun a => a.direction = Direction.V)).map Adjustment.advance).sum

lemma foldl_edge_insets_step (l : List Adjustment) :
    ∀ a b c d : Int,
      l.foldl edge_insets_step (a, b, c, d) =
        (a + hplacement_sum l, b + hadvance_sum l,
         c + vplacement_sum l, d + vadvance_sum l) := by
  induction l with
  | nil =>
      intro a b c d
      simp [hplacement_sum, hadvance_sum, vplacement_sum, vadvance_sum]
  | cons hd tl ih =>
      intro a b c d
      obtain ⟨g, p, adv, dir⟩ := hd
      cases dir <;>
        · simp [edge_insets_step, hplacement_sum, hadvance_sum, vplacement_sum,
                vadvance_sum, List.foldl_cons, ih]
          refine ⟨by ring, by ring⟩

/-- C1: For every glyph, the reduction of its accumulated Adjustments into
EdgeInsets is `left = -px`, `right = -(ax - px)`, `top = py`,
`bottom = -(ay + py)`, where `px`/`ax` are the sums of horizontal
placements/advances and `py`/`ay` those of vertical ones; in particular a
single horizontal adjustment with placement `-10` and advance `0` gives
`left = 10`, `right = -10`, and a single vertical adjustment with
placement `5` and advance `0` gives `top = 5`, `bottom = -5`. -/
theorem edge_insets_reduction_formula :
    (∀ l : List Adjustment,
       make_edge_insets_from_adjustments l =
         ⟨-(hplacement_sum l), -((hadvance_sum l) - (hplacement_sum l)),
          vplacement_sum l, -((vadvance_sum l) + (vplacement_sum l))⟩)
    ∧ make_edge_insets_from_adjustments [⟨"a", -10, 0, .H⟩] = ⟨10, -10, 0, 0⟩
    ∧ make_edge_insets_from_adjustments [⟨"a", 5, 0, .V⟩] = ⟨0, 0, 5, -5⟩ := by
  refine ⟨fun l => ?_, by decide, by decide⟩
  show (let acc := l.foldl edge_insets_step (0, 0, 0, 0)
        (⟨-acc.1, -(acc.2.1 - acc.1), acc.2.2.1, -(acc.2.2.2 + acc.2.2.1)⟩ : EdgeInsets Int)) = _
  rw [foldl_edge_insets_step l 0 0 0 0]
  simp

lemma dedup_first_nodup {α : Type} [DecidableEq α] (l : List α) :
    (dedup_first l).Nodup := by
  induction l with
  | nil => simp [dedup_first]
  | cons t rest ih =>
      simp only [dedup_first, List.nodup_cons]
      refine ⟨?_, ih.filter _⟩
      simp [List.mem_filter]

lemma dedup_first_mem {α : Type} [DecidableEq α] (l : List α) (x : α) :
    x ∈ dedup_first l ↔ x ∈ l := by
  induction l with
  | nil => simp [dedup_first]
  | cons t rest ih =>
      by_cases hx : x = t
      · subst hx
        simp [dedup_first]
      · simp [dedup_first, List.mem_filter, hx, ih]

lemma dedup_first_pairwise_index {α : Type} [DecidableEq α] (l : List α) :
    (dedup_first l).Pairwise (fun a b => l.indexOf a < l.indexOf b) := by
  induction l with
  | nil => simp [dedup_first]
  | cons t rest ih =>
      simp only [dedup_first, List.pairwise_cons]
      constructor
      · intro b hb
        obtain ⟨hbmem, hbne⟩ := List.mem_filter.mp hb
        have hbne' : b ≠ t := by simpa using hbne
        rw [List.indexOf_cons_self, List.indexOf_cons_ne _ (Ne.symm hbne')]
        exact Nat.succ_pos _
      · have hstep : (List.filter (fun x => decide (x ≠ t)) (dedup_first rest)).Pairwise
            (fun a b => rest.indexOf a < rest.indexOf b) :=
          List.Pairwise.sublist (List.filter_sublist _) ih
        refine hstep.imp_of_mem ?_
        intro a b ha hb hab
        have ha' : a ≠ t := by simpa using (List.mem_filter.mp ha).2
        have hb' : b ≠ t := by simpa using (List.mem_filter.mp hb).2
        rw [List.indexOf_cons_ne _ (Ne.symm ha'), List.indexOf_cons_ne _ (Ne.symm hb')]
        exact Nat.succ_lt_succ hab

/-- C7: `tags()` returns the distinct feature tags of the FeatureList in
first-appearance order with duplicates removed: the result has no
duplicates, contains exactly the tags of the FeatureList, and is ordered
by first-occurrence index; e.g. FeatureList `[kern, palt, kern, vpal]`
yields `[kern, palt, vpal]`.  (Determinism over repeated calls is
immediate: `make_tag_list` is a pure function of the FeatureList, computed
once at setup.) -/
theorem make_tag_list_first_appearance :
    (∀ l : List String,
       (make_tag_list l).Nodup
       ∧ (∀ x, x ∈ make_tag_list l ↔ x ∈ l)
       ∧ (make_tag_list l).Pairwise (fun a b => l.indexOf a < l.indexOf b))
    ∧ make_tag_list ["kern", "palt", "kern", "vpal"] = ["kern", "palt", "vpal"] := by
  refine ⟨fun l => ⟨dedup_first_nodup l, fun x => dedup_first_mem l x,
    dedup_first_pairwise_index l⟩, by decide⟩

/-- C3: in a supported subtable (`Format` 1 or 2), each covered
glyph/value-record pair decodes by the six-layout table: `ValueFormat` 1
(XPlacement) gives `(placement = XPlacement, advance = 0, H)`; 2
(YPlacement) gives `(YPlacement, 0, V)`; 4 (XAdvance) gives
`(0, XAdvance, H)`; 5 (XPlacement+XAdvance) gives
`(XPlacement, XAdvance, H)`; 8 (YAdvance) gives `(0, YAdvance, V)`; 10
(YPlacement+YAdvance) gives `(YPlacement, YAdvance, V)`. -/
theorem value_format_six_layouts (fmt : Nat) (g : String) (v : ValueRecord)
    (hfmt : fmt = 1 ∨ fmt = 2) :
    make_adjustments_from_subtable ⟨fmt, 1, [g], .single v⟩ = [⟨g, v.XPlacement, 0, .H⟩]
    ∧ make_adjustments_from_subtable ⟨fmt, 2, [g], .single v⟩ = [⟨g, v.YPlacement, 0, .V⟩]
    ∧ make_adjustments_from_subtable ⟨fmt, 4, [g], .single v⟩ = [⟨g, 0, v.XAdvance, .H⟩]
    ∧ make_adjustments_from_subtable ⟨fmt, 5, [g], .single v⟩ = [⟨g, v.XPlacement, v.XAdvance, .H⟩]
    ∧ make_adjustments_from_subtable ⟨fmt, 8, [g], .single v⟩ = [⟨g, 0, v.YAdvance, .V⟩]
    ∧ make_adjustments_from_subtable ⟨fmt, 10, [g], .single v⟩ = [⟨g, v.YPlacement, v.YAdvance, .V⟩] := by
  rcases hfmt with h | h <;> subst h <;>
    exact ⟨rfl, rfl, rfl, rfl, rfl, rfl⟩

/-- Witness for C3 at a concrete subtable. -/
theorem value_format_six_layouts_witness :
    make_adjustments_from_subtable ⟨1, 1, ["a"], .single ⟨7, 8, 9, 11⟩⟩ = [⟨"a", 7, 0, .H⟩] :=
  (value_format_six_layouts 1 "a" ⟨7, 8, 9, 11⟩ (Or.inl rfl)).1

/-- C2: for a LookupType-1 subtable of `Format` 1 or 2 with a recognised
`ValueFormat`: a single value record (a non-list `Value`, or a
one-element list) is broadcast to every covered glyph; a value list whose
length equals the coverage's pairs positionally; on a length mismatch
with more than one value the subtable contributes nothing. -/
theorem subtable_pairing_and_broadcast (st : SubTable)
    (make : String → ValueRecord → Adjustment)
    (hfmt : st.Format = 1 ∨ st.Format = 2)
    (hvf : value_format_dispatch st.ValueFormat = some make) :
    (∀ v, ensure_enumerable st.Value = [v] →
       make_adjustments_from_subtable st = st.CoverageGlyphs.map (fun g => make g v))
    ∧ (st.CoverageGlyphs.length = (ensure_enumerable st.Value).length →
       make_adjustments_from_subtable st =
         (st.CoverageGlyphs.zip (ensure_enumerable st.Value)).map (fun p => make p.1 p.2))
    ∧ (st.CoverageGlyphs.length ≠ (ensure_enumerable st.Value).length →
       (ensure_enumerable st.Value).length ≠ 1 →
       make_adjustments_from_subtable st = []) := by
  refine ⟨?_, ?_, ?_⟩
  · intro v hv
    by_cases hlen : st.CoverageGlyphs.length = (ensure_enumerable st.Value).length
    · obtain ⟨g, hg⟩ := List.length_eq_one.mp (by rw [hlen, hv]; rfl)
      simp [make_adjustments_from_subtable, hfmt, hvf, hv, hg]
    · have hlen1 : st.CoverageGlyphs.length ≠ 1 := by
        rw [hv] at hlen
        simpa using hlen
      simp [make_adjustments_from_subtable, hfmt, hvf, hv, hlen1]
  · intro hlen
    simp [make_adjustments_from_subtable, hfmt, hvf, hlen]
  · intro hlen hone
    simp [make_adjustments_from_subtable, hfmt, hvf, hlen, hone]

/-- Witness for C2: a coverage of three glyphs with a single non-list
value record yields one identical adjustment per covered glyph. -/
theorem subtable_pairing_and_broadcast_witness :
    make_adjustments_from_subtable ⟨1, 1, ["a", "b", "c"], .single ⟨-10, 0, 0, 0⟩⟩ =
      (["a", "b", "c"]).map (fun g => make_adjustment_from_value_in_format_1 g ⟨-10, 0, 0, 0⟩) :=
  (subtable_pairing_and_broadcast ⟨1, 1, ["a", "b", "c"], .single ⟨-10, 0, 0, 0⟩⟩
    make_adjustment_from_value_in_format_1 (Or.inl rfl) rfl).1 ⟨-10, 0, 0, 0⟩ rfl

lemma value_format_dispatch_none (vf : Nat)
    (h : vf ∉ ([1, 2, 4, 5, 8, 10] : List Nat)) :
    value_format_dispatch vf = none := by
  simp only [List.mem_cons, List.not_mem_nil, or_false, not_or] at h
  obtain ⟨h1, h2, h4, h5, h8, h10⟩ := h
  simp [value_format_dispatch, h1, h2, h4, h5, h8, h10]

/-- C8: a lookup whose `LookupType` is not 1 yields no adjustments, and a
subtable whose `Format` is not 1 or 2, or whose `ValueFormat` matches
none of the six recognised layouts, yields no adjustments; both cases
return the empty list rather than failing (the decoders are total). -/
theorem unsupported_lookup_and_subtable_empty :
    (∀ lookup : Lookup, lookup.LookupType ≠ 1 → make_adjustments_from_lookup lookup = [])
    ∧ (∀ st : SubTable, st.Format ≠ 1 → st.Format ≠ 2 →
        make_adjustments_from_subtable st = [])
    ∧ (∀ st : SubTable, st.ValueFormat ∉ ([1, 2, 4, 5, 8, 10] : List Nat) →
        make_adjustments_from_subtable st = []) := by
  refine ⟨?_, ?_, ?_⟩
  · intro lookup h
    simp [make_adjustments_from_lookup, h]
  · intro st h1 h2
    simp [make_adjustments_from_subtable, h1, h2]
  · intro st h
    simp [make_adjustments_from_subtable, value_format_dispatch_none st.ValueFormat h]

/-- Witness for C8 at concrete inputs: a LookupType-2 lookup, a Format-3
subtable, and a subtable with the unrecognised `ValueFormat` 3. -/
theorem unsupported_lookup_and_subtable_empty_witness :
    make_adjustments_from_lookup ⟨2, [⟨1, 1, ["a"], .single ⟨1, 0, 0, 0⟩⟩]⟩ = []
    ∧ make_adjustments_from_subtable ⟨3, 1, ["a"], .single ⟨1, 0, 0, 0⟩⟩ = []
    ∧ make_adjustments_from_subtable ⟨1, 3, ["a"], .single ⟨1, 0, 0, 0⟩⟩ = [] :=
  ⟨unsupported_lookup_and_subtable_empty.1 _ (by decide),
   unsupported_lookup_and_subtable_empty.2.1 _ (by decide) (by decide),
   unsupported_lookup_and_subtable_empty.2.2 _ (by decide)⟩

lemma foldl_append_adjustment (l : List Adjustment) :
    ∀ (d : String → List Adjustment) (g : String),
      (l.foldl append_adjustment d) g = d g ++ l.filter (fun a => a.glyph = g) := by
  induction l with
  | nil => intro d g; simp
  | cons hd tl ih =>
      intro d g
      by_cases hg : hd.glyph = g
      · simp [List.foldl_cons, ih, append_adjustment, hg]
      · have hg' : ¬(g = hd.glyph) := fun h => hg h.symm
        simp [List.foldl_cons, ih, append_adjustment, hg, hg']

lemma group_adjustments_by_glyph_eq_filter (l : List Adjustment) (g : String) :
    group_adjustments_by_glyph l g = l.filter (fun a => a.glyph = g) := by
  simpa using foldl_append_adjustment l (fun _ => []) g

/-- C6: each glyph has at most one entry in the GPOS reader's edge-insets
dict (it is a map keyed by glyph name), and that entry is computed by
reducing the concatenation of all the adjustments the palt and vpal tags
contribute for the glyph — the stream `palt_vpal_adjustments` visits the
tags in order and appends into one per-glyph group before reduction, so
contributions are summed, not overridden.  The concrete table below has a
palt lookup giving glyph `g` a horizontal placement `-10` and a vpal
lookup giving the same glyph a horizontal placement `-5`; the single
resulting entry is `⟨15, -15, 0, 0⟩` (sum `-15`), not the last tag's
`⟨5, -5, 0, 0⟩`. -/
theorem edge_insets_dict_sums_both_tags :
    (∀ (table : GPOSTable) (g : String),
       make_edge_insets_dict table g =
         (if (palt_vpal_adjustments table).filter (fun a => a.glyph = g) = [] then none
          else some (make_edge_insets_from_adjustments
            ((palt_vpal_adjustments table).filter (fun a => a.glyph = g)))))
    ∧ make_edge_insets_dict
        ⟨[⟨"palt", [0]⟩, ⟨"vpal", [1]⟩],
         [⟨1, [⟨1, 1, ["g"], .list [⟨-10, 0, 0, 0⟩]⟩]⟩,
          ⟨1, [⟨1, 1, ["g"], .list [⟨-5, 0, 0, 0⟩]⟩]⟩]⟩ "g" = some ⟨15, -15, 0, 0⟩ := by
  constructor
  · intro table g
    simp only [make_edge_insets_dict, group_adjustments_by_glyph_eq_filter]
  · decide

/-- C4 counterexample: a font with no GPOS table but with a vmtx table.
`has_metrics` is false, yet `vertical_metrics()` is not empty — the vmtx
dict is built under an `if 'vmtx' in font` check that is independent of
GPOS presence, contradicting the claim that for every font without a GPOS
table `vertical_metrics()` is empty. -/
theorem vmtx_nonempty_without_gpos :
    (⟨none, some [("a", (1000, 50))]⟩ : TTFontModel).gpos = none
    ∧ gpos_reader_has_metrics ⟨none, some [("a", (1000, 50))]⟩ = false
    ∧ gpos_reader_vmtx ⟨none, some [("a", (1000, 50))]⟩ "a" = some ⟨1000, 50⟩ := by
  refine ⟨rfl, rfl, by decide⟩

/-- C4 (amended): `has_metrics()` is true iff `"palt"` or `"vpal"` is
among the feature tags; and for every font without a GPOS table,
`has_metrics()` is false and `edge_insets()` is empty (the vmtx dict,
read independently of GPOS, may still be non-empty). -/
theorem has_metrics_iff_palt_or_vpal :
    (∀ font : TTFontModel,
       gpos_reader_has_metrics font = true ↔
         ("palt" ∈ gpos_reader_tags font ∨ "vpal" ∈ gpos_reader_tags font))
    ∧ (∀ font : TTFontModel, font.gpos = none →
        gpos_reader_has_metrics font = false
        ∧ ∀ g, gpos_reader_edge_insets font g = none) := by
  constructor
  · intro font
    simp [gpos_reader_has_metrics, List.elem_iff]
  · intro font h
    refine ⟨?_, fun g => ?_⟩
    · simp [gpos_reader_has_metrics, gpos_reader_tags, h]
    · simp [gpos_reader_edge_insets, h]

/-- Witness for C4 (amended) at the empty font. -/
theorem has_metrics_iff_palt_or_vpal_witness :
    gpos_reader_has_metrics ⟨none, none⟩ = false
    ∧ gpos_reader_edge_insets ⟨none, none⟩ "a" = none :=
  ⟨(has_metrics_iff_palt_or_vpal.2 ⟨none, none⟩ rfl).1,
   (has_metrics_iff_palt_or_vpal.2 ⟨none, none⟩ rfl).2 "a"⟩

lemma make_edge_insets_from_glyph_nonzero (font : UFOFont) (glyph : UFOGlyph)
    (e : EdgeInsets Rat)
    (h : make_edge_insets_from_glyph font glyph = .ok (some e)) :
    ¬(e.left = 0 ∧ e.right = 0 ∧ e.top = 0 ∧ e.bottom = 0) := by
  unfold make_edge_insets_from_glyph at h
  cases hq : edge_values_from_glyph font glyph with
  | error s => rw [hq] at h; exact absurd h (by simp)
  | ok q =>
      rw [hq] at h
      dsimp only at h
      by_cases hz : q.1 ≠ 0 ∨ q.2.1 ≠ 0 ∨ q.2.2.1 ≠ 0 ∨ q.2.2.2 ≠ 0
      · rw [if_pos hz] at h
        have he : e = ⟨q.1, q.2.1, q.2.2.1, q.2.2.2⟩ := by
          cases h
          rfl
        subst he
        rintro ⟨h1, h2, h3, h4⟩
        rcases hz with hz | hz | hz | hz <;> simp_all
      · rw [if_neg hz] at h
        cases h

lemma ufo_edge_insets_entries_nonzero (font : UFOFont) :
    ∀ (gs : List UFOGlyph) (d : String → Option (EdgeInsets Rat)),
      (∀ n e, d n = some e → ¬(e.left = 0 ∧ e.right = 0 ∧ e.top = 0 ∧ e.bottom = 0)) →
      ∀ d', ufo_edge_insets_entries font gs d = .ok d' →
      ∀ n e, d' n = some e → ¬(e.left = 0 ∧ e.right = 0 ∧ e.top = 0 ∧ e.bottom = 0) := by
  intro gs
  induction gs with
  | nil =>
      intro d hd d' h
      cases h
      exact hd
  | cons g rest ih =>
      intro d hd d' h
      unfold ufo_edge_insets_entries at h
      cases hm : make_edge_insets_from_glyph font g with
      | error s => rw [hm] at h; cases h
      | ok o =>
          cases o with
          | none =>
              rw [hm] at h
              exact ih d hd d' h
          | some insets =>
              rw [hm] at h
              refine ih _ ?_ d' h
              intro n e hne
              by_cases hn : n = g.name
              · simp only [hn, if_pos rfl] at hne
                cases hne
                exact make_edge_insets_from_glyph_nonzero font g _ hm
              · simp only [if_neg hn] at hne
                exact hd n e hne

/-- C5 counterexample: a GPOS font whose palt lookup carries a value
record with `XPlacement = 0`.  The glyph has one accumulated adjustment,
so the reduction step stores an entry — and that entry is the all-zero
`EdgeInsets`, contradicting the claim that neither reader ever emits an
all-zero entry. -/
theorem gpos_all_zero_insets_entry :
    make_edge_insets_dict ⟨[⟨"palt", [0]⟩], [⟨1, [⟨1, 1, ["a"], .list [⟨0, 0, 0, 0⟩]⟩]⟩]⟩ "a"
      = some ⟨0, 0, 0, 0⟩ := by decide

/-- C5 (amended): the guide-based reader's `edge_insets()` never contains
an all-zero entry (it inserts only when at least one computed value is
non-zero); the GPOS reader's `edge_insets()` contains an entry exactly
for the glyphs with at least one accumulated palt/vpal adjustment, and
such an entry may be all-zero when the adjustment values are zero. -/
theorem edge_insets_no_all_zero_amended :
    (∀ (font : UFOFont) (d : String → Option (EdgeInsets Rat)),
       ufo_make_edge_insets_dict font = .ok d →
       ∀ n e, d n = some e → ¬(e.left = 0 ∧ e.right = 0 ∧ e.top = 0 ∧ e.bottom = 0))
    ∧ (∀ (table : GPOSTable) (g : String),
        (make_edge_insets_dict table g).isSome = true ↔
          (palt_vpal_adjustments table).filter (fun a => a.glyph = g) ≠ []) := by
  constructor
  · intro font d h
    exact ufo_edge_insets_entries_nonzero font font.glyphs (fun _ => none) (by simp) d h
  · intro table g
    rw [make_edge_insets_dict]
    simp only [group_adjustments_by_glyph_eq_filter]
    by_cases hf : (palt_vpal_adjustments table).filter (fun a => a.glyph = g) = [] <;>
      simp [hf]

/-- Witness for C5 (amended): a UFO font with one master and a glyph with
two horizontal guides at x = 10 and x = 490 on a 500-wide layer. -/
theorem edge_insets_no_all_zero_amended_witness :
    ¬((10 : Rat) = 0 ∧ (10 : Rat) = 0 ∧ (0 : Rat) = 0 ∧ (0 : Rat) = 0) :=
  edge_insets_no_all_zero_amended.1
    ⟨[⟨880, -120⟩], [⟨"a", [⟨500⟩], some [⟨90, 10, 0⟩, ⟨90, 490, 0⟩]⟩]⟩
    (fun n => if n = "a" then some ⟨10, 10, 0, 0⟩ else none)
    (by simp [ufo_make_edge_insets_dict, ufo_edge_insets_entries, make_edge_insets_from_glyph,
              edge_values_from_glyph, glyph_horizontals, glyph_verticals,
              List.insertionSort, List.orderedInsert]
        norm_num)
    "a" ⟨10, 10, 0, 0⟩ (by simp)

lemma getLastD_mem (s : List Rat) (h : s ≠ []) : s.getLast?.getD 0 ∈ s := by
  rw [List.getLast?_eq_getLast s h]
  exact List.getLast_mem h

lemma sorted_getLastD_greatest (s : List Rat) (hs : s.Sorted (fun a b => a ≤ b)) :
    ∀ x ∈ s, x ≤ s.getLast?.getD 0 := by
  induction s with
  | nil => intro x hx; cases hx
  | cons a t ih =>
      intro x hx
      cases t with
      | nil =>
          simp at hx
          simp [hx]
      | cons b t' =>
          rw [List.getLast?_cons_cons]
          rcases List.mem_cons.mp hx with hxa | hxt
          · subst hxa
            have hmem : (b :: t').getLast?.getD 0 ∈ b :: t' := getLastD_mem _ (by simp)
            exact List.rel_of_sorted_cons hs _ hmem
          · exact ih (List.sorted_cons.mp hs).2 x hxt

lemma sorted_head_min (l : List Rat) (hl : l ≠ []) :
    (List.insertionSort (fun a b => a ≤ b) l).head?.getD 0 ∈ l
    ∧ ∀ y ∈ l, (List.insertionSort (fun a b => a ≤ b) l).head?.getD 0 ≤ y := by
  have hperm := List.perm_insertionSort (fun a b => a ≤ b) l
  have hsort := List.sorted_insertionSort (fun a b => a ≤ b) l
  cases hs : List.insertionSort (fun a b => a ≤ b) l with
  | nil =>
      exfalso
      exact hl (List.Perm.eq_nil (hs ▸ hperm).symm)
  | cons a t =>
      rw [hs] at hperm hsort
      constructor
      · simpa using hperm.mem_iff.mp (List.mem_cons_self a t)
      · intro y hy
        rcases List.mem_cons.mp (hperm.mem_iff.mpr hy) with hya | hyt
        · simp [hya]
        · simpa using List.rel_of_sorted_cons hsort y hyt

lemma sorted_getLast_max (l : List Rat) (hl : l ≠ []) :
    (List.insertionSort (fun a b => a ≤ b) l).getLast?.getD 0 ∈ l
    ∧ ∀ y ∈ l, y ≤ (List.insertionSort (fun a b => a ≤ b) l).getLast?.getD 0 := by
  have hperm := List.perm_insertionSort (fun a b => a ≤ b) l
  have hsort := List.sorted_insertionSort (fun a b => a ≤ b) l
  have hne : List.insertionSort (fun a b => a ≤ b) l ≠ [] := by
    intro h
    exact hl (List.Perm.eq_nil (h ▸ hperm).symm)
  constructor
  · exact hperm.mem_iff.mp (getLastD_mem _ hne)
  · intro y hy
    exact sorted_getLastD_greatest _ hsort y (hperm.mem_iff.mpr hy)

/-- C9: per glyph of the guide-based reader, whenever the computation
succeeds: with fewer than two horizontal guides `left = right = 0`; with
at least two, `left` is the minimum of the guides' x-coordinates and
`right` is the last layer's advance width minus their maximum; with
fewer than two vertical guides `top = bottom = 0`; with at least two,
`top` is the master's ascender minus the maximum y-coordinate and
`bottom` is the negation of the descender minus the minimum
y-coordinate.  Concretely, two horizontal guides at x = 10 and x = 490
on a 500-wide glyph give `left = 10`, `right = 10`. -/
theorem guide_edge_values_spec :
    (∀ (font : UFOFont) (glyph : UFOGlyph) (master : UFOMaster),
       font.masters.getLast? = some master →
       ∀ q, edge_values_from_glyph font glyph = .ok q →
         (((glyph_horizontals glyph).length < 2 → q.1 = 0 ∧ q.2.1 = 0)
          ∧ (2 ≤ (glyph_horizontals glyph).length →
             ∃ layer xmin xmax,
               glyph.layers.getLast? = some layer
               ∧ xmin ∈ glyph_horizontals glyph
               ∧ (∀ y ∈ glyph_horizontals glyph, xmin ≤ y)
               ∧ xmax ∈ glyph_horizontals glyph
               ∧ (∀ y ∈ glyph_horizontals glyph, y ≤ xmax)
               ∧ q.1 = xmin ∧ q.2.1 = layer.width - xmax)
          ∧ ((glyph_verticals glyph).length < 2 → q.2.2.1 = 0 ∧ q.2.2.2 = 0)
          ∧ (2 ≤ (glyph_verticals glyph).length →
             ∃ ymin ymax,
               ymin ∈ glyph_verticals glyph
               ∧ (∀ y ∈ glyph_verticals glyph, ymin ≤ y)
               ∧ ymax ∈ glyph_verticals glyph
               ∧ (∀ y ∈ glyph_verticals glyph, y ≤ ymax)
               ∧ q.2.2.1 = master.ascender - ymax ∧ q.2.2.2 = -(master.descender - ymin))))
    ∧ edge_values_from_glyph ⟨[⟨880, -120⟩], []⟩ ⟨"a", [⟨500⟩], some [⟨90, 10, 0⟩, ⟨90, 490, 0⟩]⟩
        = .ok (10, 10, 0, 0) := by
  constructor
  · intro font glyph master hm q hq
    unfold edge_values_from_glyph at hq
    rw [hm] at hq
    dsimp only at hq
    have hlen_h : (List.insertionSort (fun a b => a ≤ b) (glyph_horizontals glyph)).length
        = (glyph_horizontals glyph).length :=
      (List.perm_insertionSort (fun a b => a ≤ b) (glyph_horizontals glyph)).length_eq
    have hlen_v : (List.insertionSort (fun a b => a ≤ b) (glyph_verticals glyph)).length
        = (glyph_verticals glyph).length :=
      (List.perm_insertionSort (fun a b => a ≤ b) (glyph_verticals glyph)).length_eq
    by_cases hv : 2 ≤ (List.insertionSort (fun a b => a ≤ b) (glyph_verticals glyph)).length <;>
      by_cases hh : 2 ≤ (List.insertionSort (fun a b => a ≤ b) (glyph_horizontals glyph)).length
    · rw [if_pos hv, if_pos hh] at hq
      cases hl : glyph.layers.getLast? with
      | none => rw [hl] at hq; cases hq
      | some layer =>
          rw [hl] at hq
          cases hq
          have hne_h : glyph_horizontals glyph ≠ [] := by
            intro h0
            rw [hlen_h, h0] at hh
            simp at hh
          have hne_v : glyph_verticals glyph ≠ [] := by
            intro h0
            rw [hlen_v, h0] at hv
            simp at hv
          refine ⟨fun hlt => absurd (hlen_h ▸ hh) (by omega), fun _ => ?_, 
                  fun hlt => absurd (hlen_v ▸ hv) (by omega), fun _ => ?_⟩
          · obtain ⟨hmin_mem, hmin_le⟩ := sorted_head_min (glyph_horizontals glyph) hne_h
            obtain ⟨hmax_mem, hmax_ge⟩ := sorted_getLast_max (glyph_horizontals glyph) hne_h
            exact ⟨layer, _, _, rfl, hmin_mem, hmin_le, hmax_mem, hmax_ge, rfl, rfl⟩
          · obtain ⟨hmin_mem, hmin_le⟩ := sorted_head_min (glyph_verticals glyph) hne_v
            obtain ⟨hmax_mem, hmax_ge⟩ := sorted_getLast_max (glyph_verticals glyph) hne_v
            exact ⟨_, _, hmin_mem, hmin_le, hmax_mem, hmax_ge, rfl, rfl⟩
    · rw [if_pos hv, if_neg hh] at hq
      cases hq
      have hne_v : glyph_verticals glyph ≠ [] := by
        intro h0
        rw [hlen_v, h0] at hv
        simp at hv
      refine ⟨fun _ => ⟨rfl, rfl⟩, fun hge => absurd (hlen_h ▸ hh) (by omega),
              fun hlt => absurd (hlen_v ▸ hv) (by omega), fun _ => ?_⟩
      obtain ⟨hmin_mem, hmin_le⟩ := sorted_head_min (glyph_verticals glyph) hne_v
      obtain ⟨hmax_mem, hmax_ge⟩ := sorted_getLast_max (glyph_verticals glyph) hne_v
      exact ⟨_, _, hmin_mem, hmin_le, hmax_mem, hmax_ge, rfl, rfl⟩
    · rw [if_neg hv, if_pos hh] at hq
      cases hl : glyph.layers.getLast? with
      | none => rw [hl] at hq; cases hq
      | some layer =>
          rw [hl] at hq
          cases hq
          have hne_h : glyph_horizontals glyph ≠ [] := by
            intro h0
            rw [hlen_h, h0] at hh
            simp at hh
          refine ⟨fun hlt => absurd (hlen_h ▸ hh) (by omega), fun _ => ?_,
                  fun _ => ⟨rfl, rfl⟩, fun hge => absurd (hlen_v ▸ hv) (by omega)⟩
          obtain ⟨hmin_mem, hmin_le⟩ := sorted_head_min (glyph_horizontals glyph) hne_h
          obtain ⟨hmax_mem, hmax_ge⟩ := sorted_getLast_max (glyph_horizontals glyph) hne_h
          exact ⟨layer, _, _, rfl, hmin_mem, hmin_le, hmax_mem, hmax_ge, rfl, rfl⟩
    · rw [if_neg hv, if_neg hh] at hq
      cases hq
      exact ⟨fun _ => ⟨rfl, rfl⟩, fun hge => absurd (hlen_h ▸ hh) (by omega),
             fun _ => ⟨rfl, rfl⟩, fun hge => absurd (hlen_v ▸ hv) (by omega)⟩
  · simp [edge_values_from_glyph, glyph_horizontals, glyph_verticals,
          List.insertionSort, List.orderedInsert]
    norm_num

/-- Witness for C9: a glyph with exactly one horizontal guide (not
enough) yields `left = right = 0`. -/
theorem guide_edge_values_spec_witness :
    ((0 : Rat), (0 : Rat), (0 : Rat), (0 : Rat)).1 = 0
    ∧ ((0 : Rat), (0 : Rat), (0 : Rat), (0 : Rat)).2.1 = 0 :=
  (guide_edge_values_spec.1 ⟨[⟨880, -120⟩], []⟩ ⟨"a", [⟨500⟩], some [⟨90, 10, 0⟩]⟩
      ⟨880, -120⟩ rfl (0, 0, 0, 0)
      (by simp [edge_values_from_glyph, glyph_horizontals, glyph_verticals,
                List.insertionSort])).1
    (by simp [glyph_horizontals])

lemma make_edge_insets_from_glyph_total (font : UFOFont) (glyph : UFOGlyph)
    (hm : font.masters ≠ [])
    (hl : 2 ≤ (glyph_horizontals glyph).length → glyph.layers ≠ []) :
    ∃ r, make_edge_insets_from_glyph font glyph = .ok r := by
  obtain ⟨master, hmaster⟩ : ∃ m, font.masters.getLast? = some m :=
    ⟨font.masters.getLast hm, List.getLast?_eq_getLast font.masters hm⟩
  have hlen_h : (List.insertionSort (fun a b => a ≤ b) (glyph_horizontals glyph)).length
      = (glyph_horizontals glyph).length :=
    (List.perm_insertionSort (fun a b => a ≤ b) (glyph_horizontals glyph)).length_eq
  have hq : ∃ q, edge_values_from_glyph font glyph = .ok q := by
    unfold edge_values_from_glyph
    rw [hmaster]
    dsimp only
    by_cases hh : 2 ≤ (List.insertionSort (fun a b => a ≤ b) (glyph_horizontals glyph)).length
    · rw [if_pos hh]
      have hlay : glyph.layers ≠ [] := hl (hlen_h ▸ hh)
      rw [List.getLast?_eq_getLast glyph.layers hlay]
      exact ⟨_, rfl⟩
    · rw [if_neg hh]
      exact ⟨_, rfl⟩
  obtain ⟨q, hq⟩ := hq
  unfold make_edge_insets_from_glyph
  rw [hq]
  dsimp only
  by_cases hz : q.1 ≠ 0 ∨ q.2.1 ≠ 0 ∨ q.2.2.1 ≠ 0 ∨ q.2.2.2 ≠ 0
  · rw [if_pos hz]
    exact ⟨_, rfl⟩
  · rw [if_neg hz]
    exact ⟨_, rfl⟩

lemma ufo_edge_insets_entries_total (font : UFOFont) (hm : font.masters ≠ []) :
    ∀ (gs : List UFOGlyph) (d : String → Option (EdgeInsets Rat)),
      (∀ g ∈ gs, 2 ≤ (glyph_horizontals g).length → g.layers ≠ []) →
      ∃ d', ufo_edge_insets_entries font gs d = .ok d' := by
  intro gs
  induction gs with
  | nil => intro d hgs; exact ⟨d, rfl⟩
  | cons g rest ih =>
      intro d hgs
      obtain ⟨r, hr⟩ := make_edge_insets_from_glyph_total font g hm
        (hgs g (List.mem_cons_self g rest))
      have hrest : ∀ g ∈ rest, 2 ≤ (glyph_horizontals g).length → g.layers ≠ [] :=
        fun g hg => hgs g (List.mem_cons_of_mem _ hg)
      unfold ufo_edge_insets_entries
      rw [hr]
      cases r with
      | none => exact ih d hrest
      | some insets => exact ih _ hrest

/-- C10 (amended): constructing the guide-based reader indexes the last
master of the font unconditionally for every glyph — including glyphs
with no guides — so it fails with an `IndexError` whenever the font has
no master (and at least one glyph); but the last layer of a glyph is
indexed only when the glyph has at least two horizontal guides, so the
constructor succeeds whenever the font has at least one master and every
glyph with at least two horizontal guides has at least one layer; a
glyph whose guide annotation field is absent contributes no entry
without failing. -/
theorem ufo_reader_indexing_amended :
    (∀ (font : UFOFont) (glyph : UFOGlyph), font.masters = [] →
       edge_values_from_glyph font glyph = .error "IndexError: masters[-1]")
    ∧ (∀ (font : UFOFont) (glyph : UFOGlyph) (master : UFOMaster),
        font.masters.getLast? = some master →
        (glyph_horizontals glyph).length < 2 →
        ∃ q, edge_values_from_glyph font glyph = .ok q)
    ∧ (∀ font : UFOFont, font.masters ≠ [] →
        (∀ g ∈ font.glyphs, 2 ≤ (glyph_horizontals g).length → g.layers ≠ []) →
        ∃ d, ufo_make_edge_insets_dict font = .ok d)
    ∧ (∀ (font : UFOFont) (glyph : UFOGlyph) (master : UFOMaster),
        font.masters.getLast? = some master →
        glyph.robofontGuides = none →
        make_edge_insets_from_glyph font glyph = .ok none) := by
  refine ⟨?_, ?_, ?_, ?_⟩
  · intro font glyph h
    unfold edge_values_from_glyph
    rw [h]
    rfl
  · intro font glyph master hm hlt
    have hlen_h : (List.insertionSort (fun a b => a ≤ b) (glyph_horizontals glyph)).length
        = (glyph_horizontals glyph).length :=
      (List.perm_insertionSort (fun a b => a ≤ b) (glyph_horizontals glyph)).length_eq
    unfold edge_values_from_glyph
    rw [hm]
    dsimp only
    rw [if_neg (by omega)]
    exact ⟨_, rfl⟩
  · intro font hm hgs
    exact ufo_edge_insets_entries_total font hm font.glyphs (fun _ => none) hgs
  · intro font glyph master hm hg
    have h1 : glyph_horizontals glyph = [] := by simp [glyph_horizontals, hg]
    have h2 : glyph_verticals glyph = [] := by simp [glyph_verticals, hg]
    unfold make_edge_insets_from_glyph edge_values_from_glyph
    rw [hm, h1, h2]
    simp [List.insertionSort]

/-- C10 counterexample: a font with one master and one glyph that has no
layers and no guides.  The claim's precondition ("every glyph has at
least one layer") is violated, yet the construction succeeds — the glyph
contributes `.ok none` and the dict build completes — because
`glyph.layers[-1]` is only evaluated inside the
`len(horizontals) >= 2` branch, refuting "unconditionally indexes the
last layer of each glyph ... and fails (out-of-range indexing)
otherwise". -/
theorem ufo_reader_ok_without_layers :
    (⟨"noLayers", [], none⟩ : UFOGlyph).layers = []
    ∧ make_edge_insets_from_glyph ⟨[⟨880, -120⟩], [⟨"noLayers", [], none⟩]⟩
        ⟨"noLayers", [], none⟩ = .ok none
    ∧ (ufo_make_edge_insets_dict ⟨[⟨880, -120⟩], [⟨"noLayers", [], none⟩]⟩).isOk = true := by
  refine ⟨rfl, ?_, ?_⟩
  · simp [make_edge_insets_from_glyph, edge_values_from_glyph, glyph_horizontals,
          glyph_verticals, List.insertionSort]
  · simp [ufo_make_edge_insets_dict, ufo_edge_insets_entries, make_edge_insets_from_glyph,
          edge_values_from_glyph, glyph_horizontals, glyph_verticals, List.insertionSort,
          Except.isOk, Except.toBool]

/-- Witness for C10 (amended): a guideless glyph in a one-master font
contributes no entry and does not fail. -/
theorem ufo_reader_indexing_amended_witness :
    make_edge_insets_from_glyph ⟨[⟨880, -120⟩], []⟩ ⟨"x", [⟨500⟩], none⟩ = .ok none :=
  ufo_reader_indexing_amended.2.2.2 ⟨[⟨880, -120⟩], []⟩ ⟨"x", [⟨500⟩], none⟩
    ⟨880, -120⟩ rfl rfl
